import Mathlib

/-!
Verification of the ethtx command-line tool (src/main.go).

The file shallowly embeds the program's pure logic:
  - the decimal currency parser `Parse` (main.go, func Parse),
  - the `new` command pipeline `mktx` (main.go, var mktx Action),
  - the `show` command `showTx` and the `push` command `pushTx`,
  - the interactive confirmation loop `yesNoPrompt`,
  - the broadcast step `postTx`.

External Go libraries are modelled as follows:
  - `math/big` Int.SetString with base 10 is `setStringBase10`;
    `Int.Div` is Euclidean division, which is exactly Lean's `Int.ediv`
    (the `/` on `Int`); `Int.Mul` is `*`.
  - `encoding/hex` DecodeString is `hexDecode` (fails on odd length or a
    non-hex character, which is how the callers observe its error value).
  - go-ethereum `common.FromHex` is `fromHex`: it strips an optional
    0x or 0X, left-pads odd-length input with a zero, and decodes the
    longest valid pair-aligned hex run, ignoring the error, so it always
    returns a non-nil slice (modelled as `some`; `none` stands for a Go
    nil slice, which `fromHex` can never produce).
  - `strings.Split` on "." is `splitOnDot`; `strings.ToLower` is
    `toLowerL` (ASCII case folding, which is what the compared inputs
    "", "y", "n" exercise).
  - the RLP transaction decoder `rlp.DecodeBytes` into `types.Transaction`
    is an external black box, abstracted as a parameter
    `rlpDec : List Nat → Option RlpTx`.
  - the secp256k1 signing call is external; `mktx` returns exactly the
    data the program hands to `types.SignTx`: the assembled transaction,
    the chain identifier of the `types.NewEIP155Signer` (the literal 1),
    and the decoded private-key bytes.

Bytes are `Nat` values below 256; Go's `uint64(nonce)` conversion of an
`int64` is `goUint64`, the two's-complement reduction modulo 2^64.
-/

namespace EthTx

/-- Go `strings.Split(val, ".")` on the character list of the input. -/
def splitOnDot : List Char → List (List Char)
  | [] => [[]]
  | c :: rest =>
    if c = '.' then [] :: splitOnDot rest
    else
      let r := splitOnDot rest
      (c :: r.headD []) :: r.tail

/-- Value of a decimal digit character, `none` for a non-digit.  Models the
per-character step of Go `big.Int.SetString` in base 10. -/
def digitVal (c : Char) : Option Nat :=
  if ('0' ≤ c ∧ c ≤ '9') then some (c.toNat - ('0').toNat) else none

/-- Accumulator loop reading base-10 digits; fails on the first non-digit. -/
def parseDigitsAux : List Char → Nat → Option Nat
  | [], acc => some acc
  | c :: rest, acc =>
    match digitVal c with
    | some d => parseDigitsAux rest (10 * acc + d)
    | none => none

/-- Reads a non-empty all-digit string as a natural number. -/
def parseDigits (l : List Char) : Option Nat :=
  match l with
  | [] => none
  | _ => parseDigitsAux l 0

/-- Go `big.Int.SetString(s, 10)`: an optional sign followed by at least one
decimal digit; the whole string must be consumed. -/
def setStringBase10 (l : List Char) : Option Int :=
  match l with
  | [] => none
  | c :: rest =>
    if c = '-' then (parseDigits rest).map (fun n => -(n : Int))
    else if c = '+' then (parseDigits rest).map (fun n => (n : Int))
    else (parseDigits (c :: rest)).map (fun n => (n : Int))

/-- The source's intermediate `fval` string (main.go lines 212-221):
`parts[0]`, with `parts[1]` appended when there are exactly two parts. -/
def fvalCharsOf (val : String) : List Char :=
  let parts := splitOnDot val.data
  if parts.length = 2 then parts.headD [] ++ parts.getD 1 [] else parts.headD []

/-- The source's `fval` parsed as a base-10 integer (main.go line 223). -/
def fvalOf (val : String) : Option Int := setStringBase10 (fvalCharsOf val)

/-- The source's decimal-place count: `len(parts[1])` when there are exactly
two parts, otherwise 0 (so that the source's `dec` equals `10 ^ placesOf`:
`dec` stays at its initial value 1 = 10^0 when there is no decimal point). -/
def placesOf (val : String) : Nat :=
  let parts := splitOnDot val.data
  if parts.length = 2 then (parts.getD 1 []).length else 0

/-- Go `func Parse(val string) (*big.Int, error)` (main.go lines 197-232).
The denominator literal is the source's "1000000000000000000"; Go
`big.Int.Div` is Euclidean division, Lean's `Int.ediv` (written `/`). -/
def Parse (val : String) : Except String Int :=
  if (splitOnDot val.data).length > 2 then
    Except.error ("invalid currency amount, expected at most one decimal: " ++ val)
  else
    match setStringBase10 (fvalCharsOf val) with
    | none => Except.error ("error parsing value as currency: " ++ val)
    | some valint =>
      Except.ok ((valint * 1000000000000000000) / ((10 : Int) ^ placesOf val))

/-- Modelled from the spec: the result the spec's words prescribe,
`fval * 10^18 / 10^P` "using integer (truncating) division". -/
def truncDivResult (f : Int) (P : Nat) : Int :=
  Int.tdiv (f * 10 ^ 18) (10 ^ P)

/-- Value of a hexadecimal digit character, as in Go `encoding/hex`. -/
def hexDigitVal (c : Char) : Option Nat :=
  if ('0' ≤ c ∧ c ≤ '9') then some (c.toNat - ('0').toNat)
  else if ('a' ≤ c ∧ c ≤ 'f') then some (c.toNat - ('a').toNat + 10)
  else if ('A' ≤ c ∧ c ≤ 'F') then some (c.toNat - ('A').toNat + 10)
  else none

/-- Go `hex.DecodeString`: fails (returns a non-nil error) on a string of odd
length or containing a non-hex character. -/
def hexDecode : List Char → Option (List Nat)
  | [] => some []
  | [_] => none
  | a :: b :: rest =>
    match hexDigitVal a, hexDigitVal b with
    | some x, some y =>
      match hexDecode rest with
      | some bs => some ((16 * x + y) :: bs)
      | none => none
    | _, _ => none

/-- Go-ethereum `common.Hex2Bytes`: decodes hex pairs up to the first invalid
pair and discards the error. -/
def hex2Bytes : List Char → List Nat
  | a :: b :: rest =>
    match hexDigitVal a, hexDigitVal b with
    | some x, some y => (16 * x + y) :: hex2Bytes rest
    | _, _ => []
  | _ => []

/-- Go-ethereum `common.FromHex`: strips an optional "0x"/"0X", left-pads an
odd-length string with '0', then `Hex2Bytes`.  The result is always a non-nil
slice, so this function never returns `none`. -/
def fromHex (l : List Char) : Option (List Nat) :=
  let l1 :=
    match l with
    | '0' :: 'x' :: rest => rest
    | '0' :: 'X' :: rest => rest
    | _ => l
  let l2 := if l1.length % 2 = 1 then ('0') :: l1 else l1
  some (hex2Bytes l2)

/-- Go `strings.HasPrefix(hexval, "0x")` followed by `hexval[2:]`, as done by
the `show` and `push` commands (lowercase "0x" only). -/
def strip0x (l : List Char) : List Char :=
  match l with
  | '0' :: 'x' :: rest => rest
  | _ => l

/-- ASCII case folding of one character (Go `strings.ToLower` restricted to
ASCII, which is all the prompt comparisons look at). -/
def toLowerChar (c : Char) : Char :=
  if ('A' ≤ c ∧ c ≤ 'Z') then Char.ofNat (c.toNat + 32) else c

/-- Go `strings.ToLower` on a character list. -/
def toLowerL (l : List Char) : List Char := l.map toLowerChar

/-- Go `uint64(nonce)` where `nonce` is an `int64`: two's-complement
reduction modulo 2^64. -/
def goUint64 (n : Int) : Nat := (n % (2 ^ 64)).toNat

/-- The unsigned transaction assembled by the `new` command, in the field
order of `types.NewTransaction(nonce, to, amount, gasLimit, gasPrice, data)`.
The recipient is kept as the raw `--to` string (`common.HexToAddress` is an
external total conversion); `none` is the contract-creation case. -/
structure UnsignedTx where
  nonce : Nat
  toAddr : Option String
  value : Int
  gasLimit : Int
  gasPrice : Int
  payload : List Nat
deriving DecidableEq

/-- Everything the `new` command hands to the external signing call
`types.SignTx(tx, types.NewEIP155Signer(big.NewInt(1)), key)`. -/
structure MkTxResult where
  tx : UnsignedTx
  chainId : Int
  privkeyBytes : List Nat
deriving DecidableEq

/-- The `new` command's Action (main.go lines 59-117) up to the external
signing call: flag validation, transaction assembly and private-key
decoding, in source order.  (The transaction record is assembled before the
private-key decode in the source; both steps are pure, so the record is
written at the point of success.)  A `.ok` result means execution reached
`types.SignTx` with these inputs; every `.error` is returned before signing. -/
def mktx (nonce : Int) (gasPriceStr gasLimitStr valueStr dataStr toStr privkeyStr : String) :
    Except String MkTxResult :=
  match Parse valueStr with
  | Except.error e => Except.error e
  | Except.ok ethval =>
    match setStringBase10 gasPriceStr.data with
    | none => Except.error ("invalid value for gas price")
    | some gaspr =>
      match setStringBase10 gasLimitStr.data with
      | none => Except.error ("invalid value for gas limit")
      | some gaslim =>
        if fromHex dataStr.data = none ∧ dataStr ≠ "" then
          Except.error ("bad hex data: " ++ dataStr)
        else
          match hexDecode privkeyStr.data with
          | none => Except.error ("error decoding private key")
          | some privk =>
            Except.ok
              { tx :=
                  { nonce := goUint64 nonce
                    toAddr := if toStr = "" then none else some toStr
                    value := ethval
                    gasLimit := gaslim
                    gasPrice := gaspr
                    payload := (fromHex dataStr.data).getD [] }
                chainId := 1
                privkeyBytes := privk }

/-- A transaction decoded by the external RLP library (`rlp.DecodeBytes`
into `types.Transaction`), treated as a black box. -/
structure RlpTx where
  raw : List Nat
deriving DecidableEq

/-- Observable outcome of the `show` command. -/
inductive ShowOutcome where
  | argMissing
  | hexError
  | decodeError
  | printed (tx : RlpTx)
deriving DecidableEq

/-- The `show` command's Action (main.go lines 120-145), with the RLP
decoder abstracted as `rlpDec`. -/
def showTx (rlpDec : List Nat → Option RlpTx) (args : List String) : ShowOutcome :=
  match args with
  | [] => ShowOutcome.argMissing
  | a :: _ =>
    match hexDecode (strip0x a.data) with
    | none => ShowOutcome.hexError
    | some v =>
      match rlpDec v with
      | none => ShowOutcome.decodeError
      | some tx => ShowOutcome.printed tx

/-- Go `func yesNoPrompt(prompt string, def bool) bool` (main.go lines
234-257): reads lines until one lowercases to "", "y" or "n"; `none` models
the panic when stdin is exhausted first. -/
def yesNoPrompt (dflt : Bool) : List (List Char) → Option Bool
  | [] => none
  | line :: rest =>
    if toLowerL line = [] then some dflt
    else if toLowerL line = ['y'] then some true
    else if toLowerL line = ['n'] then some false
    else yesNoPrompt dflt rest

/-- Observable outcome of the `push` command.  `noSubmit` is the `return nil`
taken when the prompt answers no: the command ends without error and without
calling `postTx`.  `submitted h` records that `postTx` was invoked on the
(0x-stripped) hex text `h`. -/
inductive PushOutcome where
  | argMissing
  | hexError
  | decodeError
  | panicked
  | noSubmit
  | submitted (hexval : List Char)
deriving DecidableEq

/-- The `push` command's Action (main.go lines 147-177), with the RLP decoder
abstracted as `rlpDec` and the stdin lines as `lines`. -/
def pushTx (rlpDec : List Nat → Option RlpTx) (args : List String)
    (lines : List (List Char)) : PushOutcome :=
  match args with
  | [] => PushOutcome.argMissing
  | a :: _ =>
    match hexDecode (strip0x a.data) with
    | none => PushOutcome.hexError
    | some v =>
      match rlpDec v with
      | none => PushOutcome.decodeError
      | some _ =>
        match yesNoPrompt false lines with
        | none => PushOutcome.panicked
        | some false => PushOutcome.noSubmit
        | some true => PushOutcome.submitted (strip0x a.data)

instance (α β : Type) [DecidableEq α] [DecidableEq β] : DecidableEq (Except α β) := fun a b =>
  match a, b with
  | Except.error x, Except.error y =>
    if h : x = y then isTrue (by rw [h]) else isFalse (by intro hc; cases hc; exact h rfl)
  | Except.error _, Except.ok _ => isFalse (by intro hc; cases hc)
  | Except.ok _, Except.error _ => isFalse (by intro hc; cases hc)
  | Except.ok x, Except.ok y =>
    if h : x = y then isTrue (by rw [h]) else isFalse (by intro hc; cases hc; exact h rfl)

/-- The `http.Response` as `postTx` observes it: the status code, and the
result of reading the body to the end (`ioutil.ReadAll`), which may fail. -/
structure HttpResponse where
  status : Nat
  bodyRead : Except String String
deriving DecidableEq

/-- Outcome of the `http.Post` call: a transport error, or a response. -/
inductive HttpOutcome where
  | postError (e : String)
  | response (resp : HttpResponse)
deriving DecidableEq

/-- Go `func postTx(hex string) error` (main.go lines 179-195): POST to the
fixed etherscan proxy URL, fail on a transport error or a body-read error,
otherwise print the raw body.  The status code is never inspected. -/
def postTx (hexval : String) (net : HttpOutcome) : Except String String :=
  let _url :=
    "https://api.etherscan.io/api?module=proxy&action=eth_sendRawTransaction&hex=" ++ hexval
  match net with
  | HttpOutcome.postError e => Except.error e
  | HttpOutcome.response resp =>
    match resp.bodyRead with
    | Except.error e => Except.error e
    | Except.ok data => Except.ok data

/-! ## Helper lemmas -/

theorem splitOnDot_ne_nil (l : List Char) : splitOnDot l ≠ [] := by
  cases l with
  | nil => simp [splitOnDot]
  | cons c rest =>
    simp only [splitOnDot]
    split <;> simp

theorem mem_splitOnDot (c : Char) (l : List Char) :
    ∀ p, p ∈ splitOnDot l → c ∈ p → c ∈ l := by
  induction l with
  | nil =>
    intro p hp hc
    simp [splitOnDot] at hp
    subst hp
    simp at hc
  | cons a rest ih =>
    intro p hp hc
    simp only [splitOnDot] at hp
    by_cases ha : a = '.'
    · rw [if_pos ha] at hp
      rcases List.mem_cons.mp hp with h1 | h2
      · subst h1; simp at hc
      · exact List.mem_cons_of_mem a (ih p h2 hc)
    · rw [if_neg ha] at hp
      rcases List.mem_cons.mp hp with h1 | h2
      · subst h1
        rcases List.mem_cons.mp hc with rfl | hmem
        · exact List.mem_cons_self c rest
        · have hne := splitOnDot_ne_nil rest
          have hhd : (splitOnDot rest).headD [] ∈ splitOnDot rest := by
            cases hsp : splitOnDot rest with
            | nil => exact absurd hsp hne
            | cons q qs => simp
          exact List.mem_cons_of_mem a (ih _ hhd hmem)
      · have hpm : p ∈ splitOnDot rest := List.mem_of_mem_tail h2
        exact List.mem_cons_of_mem a (ih p hpm hc)

theorem fvalCharsOf_subset (s : String) (c : Char) (hc : c ∈ fvalCharsOf s) :
    c ∈ s.data := by
  unfold fvalCharsOf at hc
  simp only at hc
  split at hc
  case isTrue h2 =>
    obtain ⟨a, b, hab⟩ := List.length_eq_two.mp h2
    rw [hab] at hc
    simp only [List.headD, List.getD] at hc
    rcases List.mem_append.mp hc with h | h
    · exact mem_splitOnDot c s.data a (by rw [hab]; simp) h
    · exact mem_splitOnDot c s.data b (by rw [hab]; simp) h
  case isFalse =>
    have hne := splitOnDot_ne_nil s.data
    cases hsp : splitOnDot s.data with
    | nil => exact absurd hsp hne
    | cons q qs =>
      rw [hsp] at hc
      simp only [List.headD] at hc
      exact mem_splitOnDot c s.data q (by rw [hsp]; simp) hc

theorem parseDigits_head_none (c : Char) (rest : List Char)
    (h : digitVal c = none) : parseDigits (c :: rest) = none := by
  simp [parseDigits, parseDigitsAux, h]

theorem digitVal_none_of_not_digit (c : Char) (h : ¬ (('0' ≤ c ∧ c ≤ '9'))) :
    digitVal c = none := by
  simp [digitVal, h]

theorem setStringBase10_none_of_no_digit (l : List Char)
    (h : ∀ c ∈ l, ¬ (('0' ≤ c ∧ c ≤ '9'))) : setStringBase10 l = none := by
  cases l with
  | nil => rfl
  | cons c rest =>
    have hdig : ∀ d ∈ rest, digitVal d = none := fun d hd =>
      digitVal_none_of_not_digit d (h d (List.mem_cons_of_mem c hd))
    have hrest : parseDigits rest = none := by
      cases rest with
      | nil => rfl
      | cons d r2 => exact parseDigits_head_none d r2 (hdig d (List.mem_cons_self d r2))
    have hself : parseDigits (c :: rest) = none :=
      parseDigits_head_none c rest
        (digitVal_none_of_not_digit c (h c (List.mem_cons_self c rest)))
    simp only [setStringBase10]
    split
    · rw [hrest]; rfl
    · split
      · rw [hrest]; rfl
      · rw [hself]; rfl

theorem setStringBase10_nonneg_of_no_minus (l : List Char) (f : Int)
    (hm : ('-') ∉ l) (h : setStringBase10 l = some f) : 0 ≤ f := by
  cases l with
  | nil => simp [setStringBase10] at h
  | cons c rest =>
    simp only [setStringBase10] at h
    by_cases hc : c = '-'
    · exact absurd (hc ▸ List.mem_cons_self c rest) hm
    · rw [if_neg hc] at h
      by_cases hp : c = '+'
      · rw [if_pos hp] at h
        cases hpd : parseDigits rest with
        | none => rw [hpd] at h; simp at h
        | some m => rw [hpd] at h; simp at h; omega
      · rw [if_neg hp] at h
        cases hpd : parseDigits (c :: rest) with
        | none => rw [hpd] at h; simp at h
        | some m => rw [hpd] at h; simp at h; omega

theorem fromHex_ne_none (l : List Char) : fromHex l ≠ none := by
  simp [fromHex]

theorem tdiv_eq_ediv_of_nonneg (a b : Int) (ha : 0 ≤ a) (hb : 0 ≤ b) :
    Int.tdiv a b = a / b := Int.tdiv_eq_ediv ha hb

theorem mktx_ok_eq (nonce : Int) (gp gl v d t pk : String) (ev gpv glv : Int)
    (pkb : List Nat) (hv : Parse v = Except.ok ev)
    (hgp : setStringBase10 gp.data = some gpv)
    (hgl : setStringBase10 gl.data = some glv)
    (hpk : hexDecode pk.data = some pkb) :
    mktx nonce gp gl v d t pk =
      Except.ok
        ⟨⟨goUint64 nonce, if t = "" then none else some t, ev, glv, gpv,
          (fromHex d.data).getD []⟩, 1, pkb⟩ := by
  unfold mktx
  have hfh : ¬ (fromHex d.data = none ∧ d ≠ "") := fun hand =>
    fromHex_ne_none d.data hand.1
  simp only [hv, hgp, hgl]
  rw [if_neg hfh]
  simp only [hpk]

/-! ## Claim C1 -/

/-- Claim C1, counterexample: the parser accepts "-0.0000000000000000001"
(fval = -1, P = 19) and returns -1, but truncating division of
fval multiplied by 10 to the 18th by 10 to the 19th yields 0, so the result
does not always equal the truncating-division formula. -/
theorem parse_tdiv_counterexample :
    Parse ("-0.0000000000000000001") = Except.ok (-1) ∧
    fvalOf ("-0.0000000000000000001") = some (-1) ∧
    placesOf ("-0.0000000000000000001") = 19 ∧
    truncDivResult (-1) 19 = 0 ∧
    ((-1 : Int)) ≠ 0 := by
  refine ⟨by decide, by decide, by decide, by decide, by decide⟩

/-- Claim C1, amended: for every accepted input, the result is
fval times 10 to the 18th divided by 10 to the P, computed with Euclidean
(floor-towards-the-remainder) integer division, which agrees with truncating
division whenever fval is non-negative; the listed examples hold as stated:
parse of "1" is 10 to the 18th, parse of "1.5" is 15 times 10 to the 17th,
parse of "0.000000000000000001" is 1, and "1.2.3" and "abc" both fail. -/
theorem parse_floor_div :
    (∀ (s : String) (v : Int), Parse s = Except.ok v →
      ∃ f, fvalOf s = some f ∧ v = (f * 10 ^ 18) / ((10 : Int) ^ placesOf s) ∧
        (0 ≤ f → v = truncDivResult f (placesOf s))) ∧
    Parse ("1") = Except.ok (10 ^ 18) ∧
    Parse ("1.5") = Except.ok (15 * 10 ^ 17) ∧
    Parse ("0.000000000000000001") = Except.ok 1 ∧
    Parse ("1.2.3") = Except.error ("invalid currency amount, expected at most one decimal: 1.2.3") ∧
    Parse ("abc") = Except.error ("error parsing value as currency: abc") := by
  refine ⟨?_, by decide, by decide, by decide, by decide, by decide⟩
  intro s v h
  unfold Parse at h
  by_cases hlen : (splitOnDot s.data).length > 2
  · rw [if_pos hlen] at h; cases h
  · rw [if_neg hlen] at h
    cases hss : setStringBase10 (fvalCharsOf s) with
    | none => rw [hss] at h; cases h
    | some f =>
      rw [hss] at h
      have hv : (f * 1000000000000000000) / ((10 : Int) ^ placesOf s) = v := by
        have := h
        simp only [Except.ok.injEq] at this
        exact this
      have hlit : (1000000000000000000 : Int) = 10 ^ 18 := by norm_num
      refine ⟨f, hss, ?_, ?_⟩
      · rw [← hv, hlit]
      · intro hf
        have hmul : 0 ≤ f * 10 ^ 18 := by positivity
        have hpow : (0 : Int) ≤ 10 ^ placesOf s := by positivity
        rw [← hv, hlit]
        unfold truncDivResult
        exact (Int.tdiv_eq_ediv hmul hpow).symm

/-- Claim C1, witness: the amended theorem applied to the input "1.5". -/
theorem parse_floor_div_witness :
    ∃ f, fvalOf ("1.5") = some f ∧
      (15 * 10 ^ 17 : Int) = (f * 10 ^ 18) / ((10 : Int) ^ placesOf ("1.5")) ∧
      (0 ≤ f → (15 * 10 ^ 17 : Int) = truncDivResult f (placesOf ("1.5"))) :=
  parse_floor_div.1 ("1.5") (15 * 10 ^ 17) (by decide)

/-! ## Claim C2 -/

/-- Claim C2: a trailing decimal point with an empty fractional part gives
P = 0 and fval = "5", so "5." parses to 5 times 10 to the 18th; and every
input containing no decimal digit at all makes the parser return an error
rather than a zero value. -/
theorem parse_trailing_dot_and_no_digits :
    (Parse ("5.") = Except.ok (5 * 10 ^ 18) ∧ fvalOf ("5.") = some 5 ∧
      fvalCharsOf ("5.") = ['5'] ∧ placesOf ("5.") = 0) ∧
    (∀ s : String, (∀ c ∈ s.data, ¬ (('0' ≤ c ∧ c ≤ '9'))) →
      ∃ e, Parse s = Except.error e) := by
  refine ⟨⟨by decide, by decide, by decide, by decide⟩, ?_⟩
  intro s hs
  unfold Parse
  by_cases hlen : (splitOnDot s.data).length > 2
  · rw [if_pos hlen]; exact ⟨_, rfl⟩
  · rw [if_neg hlen]
    have hnone : setStringBase10 (fvalCharsOf s) = none :=
      setStringBase10_none_of_no_digit (fvalCharsOf s)
        (fun c hc => hs c (fvalCharsOf_subset s c hc))
    rw [hnone]
    exact ⟨_, rfl⟩

/-- Claim C2, witness: the no-digit half applied to the input ".". -/
theorem parse_no_digits_witness : ∃ e, Parse (".") = Except.error e :=
  parse_trailing_dot_and_no_digits.2 (".") (by decide)

/-! ## Claim C3 -/

/-- Claim C3, counterexample: the parser accepts "-1" and returns the
negative amount, minus 10 to the 18th, so a successful parse is not always
non-negative. -/
theorem parse_negative_counterexample :
    Parse ("-1") = Except.ok (-(10 ^ 18)) ∧ ((-(10 ^ 18) : Int) < 0) := by
  refine ⟨by decide, by decide⟩

/-- Claim C3, amended: for every accepted input string that contains no
minus sign, the resulting Amount is non-negative.  (A minus sign anywhere in
the input can reach the integer parse, for example "-1" or ".-5", and then
produces a negative result.) -/
theorem parse_nonneg_without_minus (s : String) (v : Int)
    (hm : ('-') ∉ s.data) (h : Parse s = Except.ok v) : 0 ≤ v := by
  unfold Parse at h
  by_cases hlen : (splitOnDot s.data).length > 2
  · rw [if_pos hlen] at h; cases h
  · rw [if_neg hlen] at h
    cases hss : setStringBase10 (fvalCharsOf s) with
    | none => rw [hss] at h; cases h
    | some f =>
      rw [hss] at h
      have hv : (f * 1000000000000000000) / ((10 : Int) ^ placesOf s) = v := by
        simp only [Except.ok.injEq] at h
        exact h
      have hf : 0 ≤ f :=
        setStringBase10_nonneg_of_no_minus (fvalCharsOf s) f
          (fun hmem => hm (fvalCharsOf_subset s ('-') hmem)) hss
      have hmul : 0 ≤ f * 1000000000000000000 := by positivity
      have hpow : (0 : Int) ≤ 10 ^ placesOf s := by positivity
      rw [← hv]
      exact Int.ediv_nonneg hmul hpow

/-- Claim C3, witness: the amended theorem applied to the input "2.5". -/
theorem parse_nonneg_witness : (0 : Int) ≤ 25 * 10 ^ 17 :=
  parse_nonneg_without_minus ("2.5") (25 * 10 ^ 17) (by decide) (by decide)

/-! ## Claim C4 -/

/-- Claim C4, counterexample: a response with status 500 whose body reads
successfully makes `postTx` succeed and print the body; a non-200 status does
not cause a failure, because the status code is never inspected. -/
theorem postTx_ignores_status_counterexample :
    postTx ("00") (HttpOutcome.response ⟨500, Except.ok ("result")⟩) =
      Except.ok ("result") ∧ (500 ≠ 200) := by
  refine ⟨by decide, by decide⟩

/-- Claim C4, amended: `postTx` fails exactly on a connection error or a
body-read error — the HTTP status code is never inspected, so a non-200
response whose body reads successfully still succeeds — and whenever it
succeeds the full raw response body is returned verbatim, for every status. -/
theorem postTx_error_and_body (hexval : String) (net : HttpOutcome) :
    (∀ e, net = HttpOutcome.postError e → postTx hexval net = Except.error e) ∧
    (∀ st e, net = HttpOutcome.response ⟨st, Except.error e⟩ →
      postTx hexval net = Except.error e) ∧
    (∀ st b, net = HttpOutcome.response ⟨st, Except.ok b⟩ →
      postTx hexval net = Except.ok b) ∧
    (∀ st1 st2 br, postTx hexval (HttpOutcome.response ⟨st1, br⟩) =
      postTx hexval (HttpOutcome.response ⟨st2, br⟩)) := by
  refine ⟨?_, ?_, ?_, ?_⟩
  · intro e he; subst he; rfl
  · intro st e he; subst he; rfl
  · intro st b hb; subst hb; rfl
  · intro st1 st2 br; cases br <;> rfl

/-- Claim C4, witness: the amended theorem applied to a concrete 404
response whose body reads as "resp". -/
theorem postTx_error_and_body_witness :
    postTx ("ab") (HttpOutcome.response ⟨404, Except.ok ("resp")⟩) =
      Except.ok ("resp") :=
  (postTx_error_and_body ("ab")
    (HttpOutcome.response ⟨404, Except.ok ("resp")⟩)).2.2.1 404 ("resp") rfl

/-! ## Claim C5 -/

/-- Claim C5: whenever the new command reaches the signing call, the signer
it constructs carries the fixed chain identifier 1, for every combination of
flag inputs; no input can change it. -/
theorem mktx_chain_id_one (nonce : Int) (gp gl v d t pk : String)
    (r : MkTxResult) (h : mktx nonce gp gl v d t pk = Except.ok r) :
    r.chainId = 1 := by
  unfold mktx at h
  repeat' split at h
  all_goals simp_all
  all_goals (cases h; rfl)

/-- Claim C5, witness: the theorem applied to a concrete successful
invocation of the new command. -/
theorem mktx_chain_id_one_witness :
    MkTxResult.chainId ⟨⟨0, none, 10 ^ 18, 1, 1, []⟩, 1, []⟩ = 1 :=
  mktx_chain_id_one 0 ("1") ("1") ("1") ("") ("") ("")
    ⟨⟨0, none, 10 ^ 18, 1, 1, []⟩, 1, []⟩ (by decide)

/-! ## Claim C8 -/

/-- Claim C8: with a --privkey string that is not valid hex, the new command
never reaches the signing call (no successful result exists for any flag
values), and when the earlier flag validations pass the command fails with
exactly the error "error decoding private key". -/
theorem mktx_bad_privkey (nonce : Int) (gp gl v d t pk : String)
    (hbad : hexDecode pk.data = none) :
    (∀ r, mktx nonce gp gl v d t pk ≠ Except.ok r) ∧
    (∀ ev gpv glv, Parse v = Except.ok ev →
      setStringBase10 gp.data = some gpv →
      setStringBase10 gl.data = some glv →
      mktx nonce gp gl v d t pk = Except.error ("error decoding private key")) := by
  constructor
  · intro r h
    unfold mktx at h
    repeat' split at h
    all_goals simp_all
  · intro ev gpv glv hv hgp hgl
    unfold mktx
    have hfh : ¬ (fromHex d.data = none ∧ d ≠ "") := fun hand =>
      fromHex_ne_none d.data hand.1
    simp only [hv, hgp, hgl]
    rw [if_neg hfh]
    simp only [hbad]

/-- Claim C8, witness: the theorem applied to the invalid private key "zz"
with otherwise valid flags. -/
theorem mktx_bad_privkey_witness :
    mktx 0 ("1") ("1") ("1") ("") ("") ("zz") =
      Except.error ("error decoding private key") :=
  (mktx_bad_privkey 0 ("1") ("1") ("1") ("") ("") ("zz") (by decide)).2
    (10 ^ 18) 1 1 (by decide) (by decide) (by decide)

/-! ## Claim C9 -/

/-- Claim C9: a negative --nonce value n (in the int64 range) is not
rejected: with otherwise valid flags the command succeeds, and the built
transaction's nonce field is the two's-complement conversion of n to an
unsigned 64-bit integer, that is n modulo 2 to the 64th. -/
theorem mktx_negative_nonce_wraps (nonce : Int) (gp gl v d t pk : String)
    (ev gpv glv : Int) (pkb : List Nat)
    (_h64 : -(2 ^ 63) ≤ nonce) (_hneg : nonce < 0)
    (hv : Parse v = Except.ok ev)
    (hgp : setStringBase10 gp.data = some gpv)
    (hgl : setStringBase10 gl.data = some glv)
    (hpk : hexDecode pk.data = some pkb) :
    (∃ r, mktx nonce gp gl v d t pk = Except.ok r) ∧
    (∀ r, mktx nonce gp gl v d t pk = Except.ok r →
      (r.tx.nonce : Int) = nonce % (2 ^ 64)) := by
  have hok := mktx_ok_eq nonce gp gl v d t pk ev gpv glv pkb hv hgp hgl hpk
  refine ⟨⟨_, hok⟩, ?_⟩
  intro r hr
  rw [hok] at hr
  simp only [Except.ok.injEq] at hr
  subst hr
  show ((goUint64 nonce : Nat) : Int) = nonce % (2 ^ 64)
  unfold goUint64
  exact Int.toNat_of_nonneg (Int.emod_nonneg nonce (by norm_num))

/-- Claim C9, witness: the theorem applied to nonce -1, whose transaction
nonce field is 2 to the 64th minus 1. -/
theorem mktx_negative_nonce_witness :
    ((UnsignedTx.nonce ⟨18446744073709551615, none, 10 ^ 18, 1, 1, []⟩ : Nat) : Int) =
      (-1) % (2 ^ 64) := by
  have h := (mktx_negative_nonce_wraps (-1) ("1") ("1") ("1") ("") ("") ("")
    (10 ^ 18) 1 1 [] (by decide) (by decide) (by decide) (by decide)
    (by decide) (by decide)).2
    ⟨⟨18446744073709551615, none, 10 ^ 18, 1, 1, []⟩, 1, []⟩ (by decide)
  exact h

/-! ## Claim C6 -/

/-- Claim C6: in the push command, when the decoded transaction is shown and
the prompt's first line is "n", the command ends in the no-submit state:
`postTx` is never invoked (the outcome is not `submitted`) and no error is
returned, for every RLP decoder, argument and remaining input lines. -/
theorem pushTx_decline_no_broadcast (rlpDec : List Nat → Option RlpTx)
    (a : String) (rest : List String) (lines : List (List Char))
    (v : List Nat) (tx : RlpTx)
    (hhex : hexDecode (strip0x a.data) = some v) (hrlp : rlpDec v = some tx) :
    pushTx rlpDec (a :: rest) (['n'] :: lines) = PushOutcome.noSubmit ∧
    ∀ hx, pushTx rlpDec (a :: rest) (['n'] :: lines) ≠ PushOutcome.submitted hx := by
  have hmain : pushTx rlpDec (a :: rest) (['n'] :: lines) = PushOutcome.noSubmit := by
    unfold pushTx
    simp only [hhex, hrlp]
    have hn : yesNoPrompt false (['n'] :: lines) = some false := by
      unfold yesNoPrompt
      have h1 : toLowerL ['n'] = ['n'] := by decide
      rw [h1]
      simp
    rw [hn]
  exact ⟨hmain, fun hx hc => by rw [hmain] at hc; cases hc⟩

/-- Claim C6, witness: the theorem applied to the argument "00", a decoder
that accepts it, and the single input line "n". -/
theorem pushTx_decline_witness :
    pushTx (fun _ => some ⟨[]⟩) [("00")] [['n']] = PushOutcome.noSubmit :=
  (pushTx_decline_no_broadcast (fun _ => some ⟨[]⟩) ("00") [] [] [0] ⟨[]⟩
    (by decide) rfl).1

/-! ## Claim C7 -/

/-- Claim C7: for every argument whose hex text does not decode, or whose
bytes the RLP decoder rejects, the show command ends in the corresponding
error state; it never reaches the printing state (so no zero-valued
transaction is ever printed), and, being a total function, it never panics. -/
theorem showTx_bad_hex_fails (rlpDec : List Nat → Option RlpTx)
    (a : String) (rest : List String)
    (h : hexDecode (strip0x a.data) = none ∨
      ∃ v, hexDecode (strip0x a.data) = some v ∧ rlpDec v = none) :
    (showTx rlpDec (a :: rest) = ShowOutcome.hexError ∨
      showTx rlpDec (a :: rest) = ShowOutcome.decodeError) ∧
    ∀ tx, showTx rlpDec (a :: rest) ≠ ShowOutcome.printed tx := by
  rcases h with h | ⟨v, h1, h2⟩
  · have hs : showTx rlpDec (a :: rest) = ShowOutcome.hexError := by
      unfold showTx
      simp only [h]
    exact ⟨Or.inl hs, fun tx hc => by rw [hs] at hc; cases hc⟩
  · have hs : showTx rlpDec (a :: rest) = ShowOutcome.decodeError := by
      unfold showTx
      simp only [h1, h2]
    exact ⟨Or.inr hs, fun tx hc => by rw [hs] at hc; cases hc⟩

/-- Claim C7, witness: the theorem applied to the corrupted hex argument
"zz" (with a decoder that is never consulted). -/
theorem showTx_bad_hex_witness :
    showTx (fun _ => none) [("zz")] = ShowOutcome.hexError ∨
      showTx (fun _ => none) [("zz")] = ShowOutcome.decodeError :=
  (showTx_bad_hex_fails (fun _ => none) ("zz") [] (Or.inl (by decide))).1

/-! ## Claim C10 -/

/-- Claim C10: an empty prompt line is the default answer no, so the push
command ends in the no-submit state without invoking `postTx`; and any line
that lowercases to something other than "", "y" or "n" leaves the prompt
looping on the remaining lines without deciding. -/
theorem prompt_default_and_reprompt (rlpDec : List Nat → Option RlpTx)
    (a : String) (rest : List String) (lines : List (List Char))
    (v : List Nat) (tx : RlpTx)
    (hhex : hexDecode (strip0x a.data) = some v) (hrlp : rlpDec v = some tx) :
    pushTx rlpDec (a :: rest) ([] :: lines) = PushOutcome.noSubmit ∧
    (∀ (dflt : Bool) (s : List Char) (more : List (List Char)),
      toLowerL s ≠ [] → toLowerL s ≠ ['y'] → toLowerL s ≠ ['n'] →
      yesNoPrompt dflt (s :: more) = yesNoPrompt dflt more) := by
  constructor
  · unfold pushTx
    simp only [hhex, hrlp]
    have hn : yesNoPrompt false ([] :: lines) = some false := by
      unfold yesNoPrompt
      simp [toLowerL]
    rw [hn]
  · intro dflt s more h1 h2 h3
    unfold yesNoPrompt
    rw [if_neg h1, if_neg h2, if_neg h3]
    cases more <;> rfl

/-- Claim C10, witness: the theorem applied to the argument "00" and the
input line "x", which re-prompts. -/
theorem prompt_default_witness :
    yesNoPrompt false [['x'], ['y']] = yesNoPrompt false [['y']] :=
  (prompt_default_and_reprompt (fun _ => some ⟨[]⟩) ("00") [] [] [0] ⟨[]⟩
    (by decide) rfl).2 false ['x'] [['y']] (by decide) (by decide) (by decide)

end EthTx
